import Mathlib

/-!
Verification development for a small portfolio mini-app consisting of
three parts:

* `src/contracts/PortfolioRegistry.sol` — an on-chain key-value store of
  per-owner asset amounts with batch set/get (`set`, `setMany`, `getMany`);
* `src/app/api/prices/route.ts` — a stateless HTTP price proxy (`GET`)
  that normalises an upstream aggregator response;
* the portfolio view component — identifier derivation (`toAssetId`),
  valuation (`totalUsd`), amount editing (`updateAmount`), on-chain
  reconciliation of amounts, and the stale-poll guard of the price
  polling effect.

The Solidity contract is embedded with storage as a total function
`owner → assetId → amount` (a Solidity mapping defaults every slot to
zero) and a reverting call as `Option`-failure: `none` models a revert,
in which case the pre-state remains the chain state.  Addresses, asset
identifiers and amounts are modelled as `Nat`; none of the verified
properties depends on their bit width.  JavaScript numbers are modelled
as exact rationals, with an explicit tag for the non-finite values
(`NaN`, `±Infinity`) where the code branches on finiteness.  The djb2
hash of `toAssetId` is modelled on 32-bit patterns as naturals reduced
modulo `2 ^ 32`, matching JavaScript's int32 coercion of the `<<`, `^`
and `>>> 0` operators.
-/

namespace Baseminiapp

abbrev Addr := Nat
abbrev AssetId := Nat
abbrev Amount := Nat

/-- Contract storage: `amountOf owner assetId` is the stored amount.
A Solidity mapping reads as zero on every never-written key, hence the
initial state is the constant-zero function. -/
structure RegState where
  amountOf : Addr → AssetId → Amount

/-- Freshly deployed contract: every slot reads zero. -/
def initialState : RegState := ⟨fun _ _ => 0⟩

namespace PortfolioRegistry

/-- `set(assetId, amount)`: overwrite the caller's stored amount for
`assetId`.  No error conditions. -/
def set (st : RegState) (sender : Addr) (assetId : AssetId) (amount : Amount) :
    RegState :=
  ⟨fun o a => if o = sender ∧ a = assetId then amount else st.amountOf o a⟩

/-- `setMany(assetIds, amounts)`: `require(assetIds.length == amounts.length)`
then write element-wise in sequence order.  `none` models the revert on a
length mismatch. -/
def setMany (st : RegState) (sender : Addr)
    (assetIds : List AssetId) (amounts : List Amount) : Option RegState :=
  if assetIds.length = amounts.length then
    some ((assetIds.zip amounts).foldl (fun s p => set s sender p.1 p.2) st)
  else
    none

/-- Chain state after a `setMany` transaction: a revert leaves the
pre-state untouched (all-or-nothing transaction semantics). -/
def setManyTx (st : RegState) (sender : Addr)
    (assetIds : List AssetId) (amounts : List Amount) : RegState :=
  (setMany st sender assetIds amounts).getD st

/-- `getMany(owner, assetIds)`: read the owner's amount for each requested
identifier, in request order.  A view function: no state change, no error
conditions, and the owner is an arbitrary address, not the caller. -/
def getMany (st : RegState) (owner : Addr) (assetIds : List AssetId) :
    List Amount :=
  assetIds.map (st.amountOf owner)

/-- A transaction submitted to the contract, for reasoning about which
storage slots a history of calls can touch. -/
inductive Op where
  | set (sender : Addr) (assetId : AssetId) (amount : Amount)
  | setMany (sender : Addr) (assetIds : List AssetId) (amounts : List Amount)

/-- Execute one transaction; a reverted `setMany` leaves the state as is. -/
def execOp (st : RegState) : Op → RegState
  | .set sender a x => set st sender a x
  | .setMany sender ids amts => setManyTx st sender ids amts

/-- Execute a history of transactions against a fresh contract. -/
def exec (ops : List Op) : RegState :=
  ops.foldl execOp initialState

/-- Whether a transaction names the storage slot `(o, a)` at all (an
over-approximation of writing it: a reverted batch touches nothing). -/
def Op.touches : Op → Addr → AssetId → Bool
  | .set sender a' _, o, a => decide (sender = o ∧ a' = a)
  | .setMany sender ids _, o, a => decide (sender = o ∧ a ∈ ids)

end PortfolioRegistry

/-! Price proxy — `src/app/api/prices/route.ts`.

The handler is a pure function of the `ids` query parameter, the current
time, and the behaviour of the one upstream fetch it performs (indexed by
the identifier list put into the upstream URL).  The upstream either
returns a non-ok HTTP status, returns ok with a parsed JSON body, or the
fetch/parse throws. -/

/-- One record of the upstream body's `coins` object: both `symbol` and
`price` may be absent. -/
structure CoinData where
  symbol : Option String
  price : Option ℚ
  deriving DecidableEq

/-- Parsed upstream JSON `{ coins: { [id]: {symbol?, price?} } }`; the
`coins` field may be absent (the code guards with `json && json.coins`).
The object is modelled as an association list in key order. -/
structure UpstreamJson where
  coins : Option (List (String × CoinData))
  deriving DecidableEq

/-- Outcome of the one upstream fetch of a handler invocation. -/
inductive UpstreamBehavior where
  | httpError (status : Nat)
  | ok (json : UpstreamJson)
  | throws (msg : String)
  deriving DecidableEq

/-- One entry of the normalised `prices` response object. -/
structure PriceEntry where
  symbol : Option String
  price : ℚ
  deriving DecidableEq

/-- Body of the handler's response: either the normalised prices plus a
timestamp, or an object with an `error` field. -/
inductive ApiBody where
  | prices (entries : List (String × PriceEntry)) (ts : Nat)
  | error (msg : String)
  deriving DecidableEq

/-- HTTP response of the handler. -/
structure ApiResponse where
  status : Nat
  body : ApiBody
  deriving DecidableEq

/-- Default identifier list used when the `ids` parameter is missing or
empty. -/
def DEFAULT_IDS : List String :=
  ["coingecko:bitcoin", "coingecko:ethereum", "coingecko:solana",
   "coingecko:base-ecosystem-token", "coingecko:chainlink"]

/-- Requested identifiers: split the `ids` parameter on commas and trim
each part; an absent or empty parameter falls back to the defaults. -/
def parseIds (idsParam : Option String) : List String :=
  (match idsParam with
    | some p => if p = "" then DEFAULT_IDS else p.splitOn ","
    | none => DEFAULT_IDS).map String.trim

/-- Normalisation loop of the handler: one output entry per key of the
upstream `coins` object, `price` defaulting to zero when the upstream
record has none. -/
def normalizePrices (json : UpstreamJson) : List (String × PriceEntry) :=
  match json.coins with
  | none => []
  | some coins => coins.map fun p => (p.1, ⟨p.2.symbol, p.2.price.getD 0⟩)

/-- The route handler `GET`: 502 with an error body on an upstream non-ok
status, 500 with an error body when the fetch or parse throws, otherwise
200 with the normalised prices and a timestamp. -/
def GET (idsParam : Option String) (ts : Nat)
    (upstream : List String → UpstreamBehavior) : ApiResponse :=
  match upstream (parseIds idsParam) with
  | .throws msg => ⟨500, .error msg⟩
  | .httpError status => ⟨502, .error ("Upstream error: " ++ toString status)⟩
  | .ok json => ⟨200, .prices (normalizePrices json) ts⟩

/-- Whether a response body is an error object. -/
def ApiBody.isError : ApiBody → Bool
  | .error _ => true
  | _ => false

/-- The entries of a prices response (empty for an error body). -/
def ApiResponse.priceEntries : ApiResponse → List (String × PriceEntry)
  | ⟨_, .prices entries _⟩ => entries
  | _ => []

/-- Price found in a response for one identifier, if any entry is keyed
by it. -/
def lookupPrice (r : ApiResponse) (k : String) : Option ℚ :=
  (r.priceEntries.lookup k).map PriceEntry.price

/-! Portfolio view — holdings, valuation and reconciliation. -/

/-- A JavaScript number: either a finite value (modelled exactly as a
rational) or one of the non-finite values. -/
inductive JsNum where
  | nan
  | posInf
  | negInf
  | num (q : ℚ)
  deriving DecidableEq

/-- JavaScript's `isFinite`. -/
def JsNum.isFinite : JsNum → Bool
  | .num _ => true
  | _ => false

/-- Finite value of a JavaScript number, zero on the non-finite ones. -/
def JsNum.valD : JsNum → ℚ
  | .num q => q
  | _ => 0

/-- One row of the holdings list. -/
structure Holding where
  id : String
  symbol : Option String
  name : Option String
  amount : ℚ
  deriving DecidableEq

/-- Price lookup of the view: `prices[h.id]?.price ?? 0`. -/
def priceFor (prices : List (String × PriceEntry)) (id : String) : ℚ :=
  match prices.lookup id with
  | some e => e.price
  | none => 0

/-- Displayed total: `holdings.reduce((sum, h) => sum + h.amount * p, 0)`
with `p` the price looked up by the holding's identifier. -/
def totalUsd (holdings : List Holding) (prices : List (String × PriceEntry)) :
    ℚ :=
  holdings.foldl (fun sum h => sum + h.amount * priceFor prices h.id) 0

/-- `updateAmount(index, nextAmount)`: replace the amount of the holding
at `index`, coercing a non-finite input to zero.  The component only
calls it with an index of an existing row; an out-of-range index leaves
the list unchanged here. -/
def updateAmount (holdings : List Holding) (index : Nat) (nextAmount : JsNum) :
    List Holding :=
  match holdings.get? index with
  | some h =>
      holdings.set index
        { h with amount := if nextAmount.isFinite then nextAmount.valD else 0 }
  | none => holdings

/-- Reconciliation loop body, carrying the running position: each holding's
amount is overwritten by the chain amount at the same position (zero when
the chain list is shorter, `chainAmounts[i] ?? 0n`) divided by `10 ^ 18`
(the 18-decimal fixed-point conversion, taken exactly over `ℚ`). -/
def applyChainAmountsFrom (chainAmounts : List Nat) (i : Nat) :
    List Holding → List Holding
  | [] => []
  | h :: t =>
      { h with amount := (chainAmounts.getD i 0 : ℚ) / 10 ^ 18 }
        :: applyChainAmountsFrom chainAmounts (i + 1) t

/-- On-chain load effect: overwrite every holding's amount with the
position-aligned on-chain amount converted from 18-decimal fixed point. -/
def applyChainAmounts (chainAmounts : List Nat) (holdings : List Holding) :
    List Holding :=
  applyChainAmountsFrom chainAmounts 0 holdings

/-! Identifier derivation — `toAssetId`. -/

/-- Lowercase hexadecimal digit for a value below 16. -/
def hexChar (n : Nat) : Char :=
  if n < 10 then Char.ofNat (48 + n) else Char.ofNat (87 + n)

/-- Minimal-length hexadecimal digits of a natural, most significant
first — JavaScript's `n.toString(16)` for a non-negative integer. -/
def hexDigits (n : Nat) : List Char :=
  if h : n < 16 then [hexChar n]
  else hexDigits (n / 16) ++ [hexChar (n % 16)]
decreasing_by
  exact Nat.div_lt_self (Nat.lt_of_lt_of_le (by norm_num) (Nat.le_of_not_lt h))
    (by norm_num)

/-- JavaScript's `String.prototype.padStart` on character lists. -/
def padStart (target : Nat) (c : Char) (l : List Char) : List Char :=
  List.replicate (target - l.length) c ++ l

/-- UTF-8 bytes of one character — what `TextEncoder().encode` produces
per code point. -/
def utf8Bytes (c : Char) : List Nat :=
  let n := c.toNat
  if n < 0x80 then [n]
  else if n < 0x800 then
    [0xC0 ||| (n >>> 6), 0x80 ||| (n &&& 0x3F)]
  else if n < 0x10000 then
    [0xE0 ||| (n >>> 12), 0x80 ||| ((n >>> 6) &&& 0x3F), 0x80 ||| (n &&& 0x3F)]
  else
    [0xF0 ||| (n >>> 18), 0x80 ||| ((n >>> 12) &&& 0x3F),
     0x80 ||| ((n >>> 6) &&& 0x3F), 0x80 ||| (n &&& 0x3F)]

/-- UTF-8 encoding of a string, `TextEncoder().encode(id)`. -/
def encodeUtf8 (s : String) : List Nat :=
  s.data.flatMap utf8Bytes

/-- One step of the djb2-xor fold `hash = ((hash << 5) + hash) ^ byte` on
32-bit patterns: the JavaScript `<<` and `^` operators coerce to int32,
so the running hash is kept as its bit pattern reduced modulo `2 ^ 32`. -/
def djb2Step (h b : Nat) : Nat :=
  ((h * 32 % 2 ^ 32 + h) % 2 ^ 32) ^^^ b

/-- The folded hash of `toAssetId`, starting from 5381, with the final
`>>> 0` already reflected by working on bit patterns. -/
def djb2 (bytes : List Nat) : Nat :=
  bytes.foldl djb2Step 5381

/-- `toAssetId(id)`: fold the UTF-8 bytes of the identifier string into
the 32-bit djb2-xor hash, print it as hexadecimal padded to 8 digits,
zero-pad to 64 digits and prepend `0x`. -/
def toAssetId (id : String) : String :=
  String.mk
    ('0' :: 'x' :: padStart 64 '0' (padStart 8 '0' (hexDigits (djb2 (encodeUtf8 id)))))

/-! Price polling effect — stale-poll guard.

Each run of the polling effect closes over its own `ignore` flag,
initially false; the effect's cleanup (run when the identifier set
changes or the component unmounts) sets the flag, and a resolving fetch
applies its result to the price map only if the flag of its own effect
instance is still unset.  Effect instances are numbered by epoch, and the
interleaving of cleanups and fetch resolutions is an explicit event
list. -/

/-- State of the polling machinery: the `ignore` flag of every effect
epoch, and the current price map. -/
structure EffectState where
  ignoreOf : Nat → Bool
  prices : List (String × PriceEntry)

/-- An observable event: the cleanup of an effect epoch, or the
resolution of a fetch started by some epoch carrying its result. -/
inductive PollEvent where
  | cleanup (epoch : Nat)
  | resolve (epoch : Nat) (result : List (String × PriceEntry))

/-- Event semantics: cleanup sets the epoch's `ignore` flag; a resolution
applies its result only when its epoch's flag is still unset
(`if (!ignore) setPrices(...)`). -/
def pollStep (s : EffectState) : PollEvent → EffectState
  | .cleanup e => ⟨fun k => if k = e then true else s.ignoreOf k, s.prices⟩
  | .resolve e r => if s.ignoreOf e then s else ⟨s.ignoreOf, r⟩

/-- Run a sequence of events. -/
def pollRun (s : EffectState) (evs : List PollEvent) : EffectState :=
  evs.foldl pollStep s

/-- Mounted component before any cleanup or resolution: no flag set, no
prices yet. -/
def pollInit : EffectState :=
  ⟨fun _ => false, []⟩

/-! Concrete scenario inputs used by counterexamples and witnesses. -/

/-- Upstream that answers ok with a single coin `a` priced 1, whatever
was requested. -/
def c4Upstream : List String → UpstreamBehavior :=
  fun _ => .ok ⟨some [("a", ⟨none, some 1⟩)]⟩

/-- Upstream that answers with HTTP status 503 (non-ok). -/
def c5UpstreamHttpError : List String → UpstreamBehavior :=
  fun _ => .httpError 503

/-- Upstream whose fetch throws. -/
def c5UpstreamThrows : List String → UpstreamBehavior :=
  fun _ => .throws "fetch failed"

/-! Helper lemmas about the contract's write loop. -/

namespace PortfolioRegistry

theorem set_amountOf_same (st : RegState) (sender : Addr) (aid : AssetId)
    (x : Amount) : (set st sender aid x).amountOf sender aid = x := by
  simp [set]

theorem set_amountOf_other (st : RegState) (sender : Addr) (aid : AssetId)
    (x : Amount) (o : Addr) (a : AssetId) (h : o ≠ sender ∨ a ≠ aid) :
    (set st sender aid x).amountOf o a = st.amountOf o a := by
  have : ¬(o = sender ∧ a = aid) := by
    rcases h with h | h <;> intro hc <;> exact h (by simp [hc.1, hc.2])
  simp [set, this]

/-- Frame property of the write loop: folding writes over a list of
(identifier, amount) pairs leaves every slot alone whose owner is not the
sender or whose identifier is not among the written ones. -/
theorem foldl_set_frame (sender : Addr) (o : Addr) (a : AssetId) :
    ∀ (l : List (AssetId × Amount)) (st : RegState),
      (o ≠ sender ∨ ∀ p ∈ l, p.1 ≠ a) →
      ((l.foldl (fun s p => set s sender p.1 p.2) st).amountOf o a
        = st.amountOf o a)
  | [], st, _ => rfl
  | p :: l, st, h => by
    have htail : o ≠ sender ∨ ∀ q ∈ l, q.1 ≠ a := by
      rcases h with h | h
      · exact Or.inl h
      · exact Or.inr fun q hq => h q (List.mem_cons_of_mem _ hq)
    have hhead : o ≠ sender ∨ a ≠ p.1 := by
      rcases h with h | h
      · exact Or.inl h
      · exact Or.inr (fun hc => h p (List.mem_cons_self _ _) hc.symm)
    rw [List.foldl_cons, foldl_set_frame sender o a l _ htail,
      set_amountOf_other _ _ _ _ _ _ hhead]

/-- Reading back after the write loop: with pairwise-distinct identifiers,
each identifier reads the amount it was paired with. -/
theorem getMany_foldl_set (sender : Addr) :
    ∀ (ids : List AssetId) (amts : List Amount) (st : RegState),
      ids.Nodup → ids.length = amts.length →
      getMany ((ids.zip amts).foldl (fun s p => set s sender p.1 p.2) st)
        sender ids = amts
  | [], [], _, _, _ => rfl
  | [], _ :: _, _, _, hlen => by simp at hlen
  | _ :: _, [], _, _, hlen => by simp at hlen
  | i :: ids, x :: amts, st, hnd, hlen => by
    have hnotmem : i ∉ ids := (List.nodup_cons.mp hnd).1
    have hnd' : ids.Nodup := (List.nodup_cons.mp hnd).2
    have hlen' : ids.length = amts.length := by simpa using hlen
    have hframe : ((ids.zip amts).foldl (fun s p => set s sender p.1 p.2)
        (set st sender i x)).amountOf sender i = x := by
      rw [foldl_set_frame sender sender i (ids.zip amts) _
        (Or.inr fun p hp hc => hnotmem (hc ▸ (List.of_mem_zip hp).1))]
      exact set_amountOf_same st sender i x
    have ih := getMany_foldl_set sender ids amts (set st sender i x) hnd' hlen'
    simp only [List.zip_cons_cons, List.foldl_cons, getMany, List.map_cons]
    simp only [getMany] at ih
    rw [hframe, ih]

/-- A successful `setMany` writes exactly the fold of the element-wise
writes. -/
theorem setMany_eq_some (st : RegState) (sender : Addr)
    (ids : List AssetId) (amts : List Amount)
    (hlen : ids.length = amts.length) :
    setMany st sender ids amts = some (setManyTx st sender ids amts) := by
  simp [setMany, setManyTx, hlen]

/-- Frame property of one transaction: an untouched slot is preserved. -/
theorem execOp_untouched (st : RegState) (op : Op) (o : Addr) (a : AssetId)
    (h : op.touches o a = false) :
    (execOp st op).amountOf o a = st.amountOf o a := by
  cases op with
  | set sender a' x =>
      simp only [Op.touches, decide_eq_false_iff_not] at h
      refine set_amountOf_other st sender a' x o a ?_
      by_cases ho : o = sender
      · exact Or.inr fun hc => h ⟨ho.symm, hc.symm⟩
      · exact Or.inl ho
  | setMany sender ids amts =>
      simp only [Op.touches, decide_eq_false_iff_not] at h
      simp only [execOp, setManyTx, setMany]
      by_cases hlen : ids.length = amts.length
      · simp only [hlen, if_true, Option.getD_some]
        refine foldl_set_frame sender o a (ids.zip amts) st ?_
        by_cases ho : o = sender
        · exact Or.inr fun p hp hc => h ⟨ho.symm, hc ▸ (List.of_mem_zip hp).1⟩
        · exact Or.inl ho
      · simp [hlen]

/-- A history of transactions none of which touches slot `(o, a)`
preserves that slot. -/
theorem foldl_execOp_untouched (o : Addr) (a : AssetId) :
    ∀ (ops : List Op) (st : RegState),
      (∀ op ∈ ops, op.touches o a = false) →
      (ops.foldl execOp st).amountOf o a = st.amountOf o a
  | [], _, _ => rfl
  | op :: ops, st, h => by
    rw [List.foldl_cons,
      foldl_execOp_untouched o a ops _ fun q hq => h q (List.mem_cons_of_mem _ hq),
      execOp_untouched st op o a (h op (List.mem_cons_self _ _))]

end PortfolioRegistry

/-- C1: a `setMany` batch write followed by a `getMany` batch read with the
same owner and identifier sequence returns the written amounts in order —
amended to require the identifier sequence to be duplicate-free, because
with a repeated identifier the later write wins and every position of that
identifier reads back the last written amount. -/
theorem C1_setMany_getMany_roundtrip (st : RegState) (sender : Addr)
    (ids : List AssetId) (amts : List Amount)
    (hnd : ids.Nodup) (hlen : ids.length = amts.length) :
    PortfolioRegistry.setMany st sender ids amts
      = some (PortfolioRegistry.setManyTx st sender ids amts) ∧
    PortfolioRegistry.getMany (PortfolioRegistry.setManyTx st sender ids amts)
      sender ids = amts := by
  refine ⟨PortfolioRegistry.setMany_eq_some st sender ids amts hlen, ?_⟩
  have htx : PortfolioRegistry.setManyTx st sender ids amts
      = (ids.zip amts).foldl
          (fun s p => PortfolioRegistry.set s sender p.1 p.2) st := by
    simp [PortfolioRegistry.setManyTx, PortfolioRegistry.setMany, hlen]
  rw [htx]
  exact PortfolioRegistry.getMany_foldl_set sender ids amts st hnd hlen

/-- C1 witness: writing amounts 10 and 20 for the distinct identifiers 1
and 2 and reading them back returns exactly 10 and 20. -/
theorem C1_roundtrip_witness :
    PortfolioRegistry.getMany
      (PortfolioRegistry.setManyTx initialState 0 [1, 2] [10, 20]) 0 [1, 2]
      = [10, 20] :=
  (C1_setMany_getMany_roundtrip initialState 0 [1, 2] [10, 20]
    (by decide) (by decide)).2

/-- C1 counterexample: with the duplicated identifier sequence `[0, 0]`
and amounts `[1, 2]`, `setMany` succeeds but the subsequent `getMany`
returns `[2, 2]`, not the written `[1, 2]`: the claim fails as stated for
sequences with repeated identifiers. -/
theorem C1_counterexample :
    PortfolioRegistry.setMany initialState 0 [0, 0] [1, 2]
      = some (PortfolioRegistry.setManyTx initialState 0 [0, 0] [1, 2]) ∧
    PortfolioRegistry.getMany
      (PortfolioRegistry.setManyTx initialState 0 [0, 0] [1, 2]) 0 [0, 0]
      = [2, 2] ∧
    ([2, 2] : List Amount) ≠ [1, 2] := by
  refine ⟨rfl, by decide, by decide⟩

/-- C2: a `setMany` call whose identifier and amount sequences have
different lengths reverts (`none`), and the chain state is the untouched
pre-state: every stored amount of every owner is unchanged — the
rejection is atomic with no partial application. -/
theorem C2_setMany_length_mismatch_reverts (st : RegState) (sender : Addr)
    (ids : List AssetId) (amts : List Amount)
    (hlen : ids.length ≠ amts.length) :
    PortfolioRegistry.setMany st sender ids amts = none ∧
    ∀ o a, (PortfolioRegistry.setManyTx st sender ids amts).amountOf o a
      = st.amountOf o a := by
  have hnone : PortfolioRegistry.setMany st sender ids amts = none := by
    simp [PortfolioRegistry.setMany, hlen]
  exact ⟨hnone, fun o a => by simp [PortfolioRegistry.setManyTx, hnone]⟩

/-- C2 witness: one identifier against zero amounts reverts and leaves a
previously written slot unchanged. -/
theorem C2_witness :
    PortfolioRegistry.setMany
      (PortfolioRegistry.set initialState 0 1 7) 0 [1] [] = none ∧
    (PortfolioRegistry.setManyTx
      (PortfolioRegistry.set initialState 0 1 7) 0 [1] []).amountOf 0 1
      = (PortfolioRegistry.set initialState 0 1 7).amountOf 0 1 :=
  ⟨(C2_setMany_length_mismatch_reverts
      (PortfolioRegistry.set initialState 0 1 7) 0 [1] [] (by decide)).1,
   (C2_setMany_length_mismatch_reverts
      (PortfolioRegistry.set initialState 0 1 7) 0 [1] [] (by decide)).2 0 1⟩

/-- C3: `getMany` returns one amount per requested identifier, aligned
position-by-position (position `i` holds the owner's stored amount for
identifier `i`), and a slot `(o, a)` never touched by any transaction in
the contract's history still reads zero.  The embedding's `getMany` is a
total function taking the owner as an argument distinct from any caller:
it has no error conditions and the owner need not be the caller. -/
theorem C3_getMany_aligned_default_zero (st : RegState) (owner : Addr)
    (ids : List AssetId) (i : Nat) (ops : List PortfolioRegistry.Op)
    (o : Addr) (a : AssetId)
    (hnever : ∀ op ∈ ops, op.touches o a = false) :
    (PortfolioRegistry.getMany st owner ids).length = ids.length ∧
    (PortfolioRegistry.getMany st owner ids).get? i
      = (ids.get? i).map (st.amountOf owner) ∧
    (PortfolioRegistry.exec ops).amountOf o a = 0 := by
  refine ⟨by simp [PortfolioRegistry.getMany], ?_, ?_⟩
  · simp [PortfolioRegistry.getMany]
  · rw [PortfolioRegistry.exec,
      PortfolioRegistry.foldl_execOp_untouched o a ops initialState hnever]
    rfl

/-- C3 witness: a two-identifier read against a state holding 7 for
identifier 1 returns a two-element list whose first position is 7, and a
history writing only other slots leaves `(2, 9)` at zero. -/
theorem C3_witness :
    (PortfolioRegistry.getMany
      (PortfolioRegistry.set initialState 0 1 7) 0 [1, 2]).length
      = ([1, 2] : List AssetId).length ∧
    (PortfolioRegistry.getMany
      (PortfolioRegistry.set initialState 0 1 7) 0 [1, 2]).get? 0
      = (([1, 2] : List AssetId).get? 0).map
          ((PortfolioRegistry.set initialState 0 1 7).amountOf 0) ∧
    (PortfolioRegistry.exec
      [PortfolioRegistry.Op.set 0 1 7,
       PortfolioRegistry.Op.setMany 0 [1, 2] [10, 20]]).amountOf 2 9 = 0 :=
  C3_getMany_aligned_default_zero (PortfolioRegistry.set initialState 0 1 7)
    0 [1, 2] 0
    [PortfolioRegistry.Op.set 0 1 7,
     PortfolioRegistry.Op.setMany 0 [1, 2] [10, 20]]
    2 9 (by decide)

/-- C10: for a successful `set` or `setMany` call, every storage slot of
another owner, and every slot of the caller for an identifier not passed
in the call, retains its previous stored amount. -/
theorem C10_set_setMany_frame (st : RegState) (sender : Addr)
    (aid : AssetId) (x : Amount) (ids : List AssetId) (amts : List Amount)
    (st' : RegState) (o : Addr) (a : AssetId)
    (hsucc : PortfolioRegistry.setMany st sender ids amts = some st')
    (hsm : o ≠ sender ∨ a ∉ ids) (hs : o ≠ sender ∨ a ≠ aid) :
    st'.amountOf o a = st.amountOf o a ∧
    (PortfolioRegistry.set st sender aid x).amountOf o a = st.amountOf o a := by
  constructor
  · have hlen : ids.length = amts.length := by
      by_contra hlen
      simp [PortfolioRegistry.setMany, hlen] at hsucc
    have hst' : st' = (ids.zip amts).foldl
        (fun s p => PortfolioRegistry.set s sender p.1 p.2) st := by
      simp only [PortfolioRegistry.setMany, hlen, if_true,
        Option.some.injEq] at hsucc
      exact hsucc.symm
    rw [hst']
    refine PortfolioRegistry.foldl_set_frame sender o a _ st ?_
    rcases hsm with h | h
    · exact Or.inl h
    · exact Or.inr fun p hp hc => h (hc ▸ (List.of_mem_zip hp).1)
  · exact PortfolioRegistry.set_amountOf_other st sender aid x o a hs

/-- Association-list lookup of a key known to be in a key-distinct list,
through the per-entry normalisation map. -/
theorem lookup_map_entry (f : CoinData → PriceEntry) (k : String)
    (d : CoinData) :
    ∀ coins : List (String × CoinData),
      (k, d) ∈ coins → (coins.map Prod.fst).Nodup →
      (coins.map fun p => (p.1, f p.2)).lookup k = some (f d) := by
  intro coins
  induction coins with
  | nil => intro hmem _; exact absurd hmem (List.not_mem_nil _)
  | cons p coins ih =>
    intro hmem hnd
    obtain ⟨k', d'⟩ := p
    rcases List.mem_cons.mp hmem with h | h
    · cases h
      simp [List.lookup]
    · have hk : k ≠ k' := by
        intro hc
        have hmm : k ∈ coins.map Prod.fst := List.mem_map_of_mem Prod.fst h
        exact (List.nodup_cons.mp hnd).1 (hc ▸ hmm)
      have hbeq : (k == k') = false := beq_false_of_ne hk
      simp only [List.map_cons, List.lookup, hbeq]
      exact ih h (List.nodup_cons.mp hnd).2

/-- Association-list lookup of a key absent from the key list is `none`. -/
theorem lookup_eq_none_of_not_mem_keys :
    ∀ (entries : List (String × PriceEntry)) (k : String),
      k ∉ entries.map Prod.fst → entries.lookup k = none := by
  intro entries
  induction entries with
  | nil => intro _ _; rfl
  | cons p entries ih =>
    intro k hk
    obtain ⟨k', v⟩ := p
    have h1 : k ≠ k' := fun hc =>
      hk (hc ▸ List.mem_cons_self _ _)
    have h2 : k ∉ entries.map Prod.fst := fun hc =>
      hk (List.mem_cons_of_mem _ hc)
    simp only [List.lookup, beq_false_of_ne h1]
    exact ih k h2

/-- C4 (amended): on an upstream success the handler answers 200, and the
returned prices mapping is keyed by exactly the keys of the upstream
`coins` object, in upstream order: a key present upstream is returned
with its price defaulting to zero when the upstream record has none, and
a requested identifier absent from the upstream response gets no entry
at all (rather than a zero-price entry). -/
theorem C4_prices_keyed_by_upstream (idsParam : Option String) (ts : Nat)
    (upstream : List String → UpstreamBehavior)
    (coins : List (String × CoinData)) (k : String) (d : CoinData)
    (k' : String)
    (hup : upstream (parseIds idsParam) = .ok ⟨some coins⟩)
    (hnd : (coins.map Prod.fst).Nodup)
    (hmem : (k, d) ∈ coins)
    (hk' : k' ∉ coins.map Prod.fst) :
    (GET idsParam ts upstream).status = 200 ∧
    (GET idsParam ts upstream).priceEntries.map Prod.fst
      = coins.map Prod.fst ∧
    lookupPrice (GET idsParam ts upstream) k = some (d.price.getD 0) ∧
    lookupPrice (GET idsParam ts upstream) k' = none := by
  have hget : GET idsParam ts upstream
      = ⟨200, .prices (coins.map fun p =>
          (p.1, ⟨p.2.symbol, p.2.price.getD 0⟩)) ts⟩ := by
    simp [GET, hup, normalizePrices]
  have hentries : (GET idsParam ts upstream).priceEntries
      = coins.map fun p => (p.1, ⟨p.2.symbol, p.2.price.getD 0⟩) := by
    rw [hget]; rfl
  refine ⟨by rw [hget], ?_, ?_, ?_⟩
  · rw [hentries, List.map_map]; rfl
  · rw [lookupPrice, hentries,
      lookup_map_entry (fun c => ⟨c.symbol, c.price.getD 0⟩) k d coins hmem hnd]
    rfl
  · rw [lookupPrice, hentries, lookup_eq_none_of_not_mem_keys _ k' ?_]
    · rfl
    · rw [List.map_map]
      exact hk'

/-- C4 witness: requesting `ids=a,b` against an upstream that answers
only for `a` with price 1 returns status 200, the single key `a` with
price 1, and no entry for `b`. -/
theorem C4_witness :
    (GET (some "a,b") 0 c4Upstream).status = 200 ∧
    (GET (some "a,b") 0 c4Upstream).priceEntries.map Prod.fst
      = ([("a", (⟨none, some 1⟩ : CoinData))].map Prod.fst) ∧
    lookupPrice (GET (some "a,b") 0 c4Upstream) "a"
      = some ((some (1 : ℚ)).getD 0) ∧
    lookupPrice (GET (some "a,b") 0 c4Upstream) "b" = none :=
  C4_prices_keyed_by_upstream (some "a,b") 0 c4Upstream
    [("a", ⟨none, some 1⟩)] "a" ⟨none, some 1⟩ "b"
    rfl (by decide) (by decide) (by decide)

/-- C4 counterexample: with `ids=a,b` and an upstream success response
whose `coins` object holds only the key `a`, the returned prices mapping
has one entry, keyed `a` alone — not the two entries keyed `a` and `b`
the claim requires (the absent identifier `b` gets no zero-price entry). -/
theorem C4_counterexample :
    GET (some "a,b") 0 c4Upstream
      = ⟨200, .prices [("a", ⟨none, 1⟩)] 0⟩ ∧
    ((GET (some "a,b") 0 c4Upstream).priceEntries.map Prod.fst).length ≠ 2 ∧
    "b" ∉ (GET (some "a,b") 0 c4Upstream).priceEntries.map Prod.fst := by
  refine ⟨by decide, by decide, by decide⟩

/-- The displayed total is the left fold of the per-holding values; it
equals the plain sum of amount times looked-up price over the list. -/
theorem totalUsd_eq_sum (prices : List (String × PriceEntry)) :
    ∀ (holdings : List Holding) (acc : ℚ),
      holdings.foldl (fun sum h => sum + h.amount * priceFor prices h.id) acc
        = acc + (holdings.map fun h => h.amount * priceFor prices h.id).sum
  | [], acc => by simp
  | h :: t, acc => by
    rw [List.foldl_cons, totalUsd_eq_sum prices t
      (acc + h.amount * priceFor prices h.id)]
    simp [add_assoc]

/-- Setting one holding's amount to zero makes the total equal the total
of the list with that holding removed. -/
theorem sum_map_set_amount_zero (prices : List (String × PriceEntry)) :
    ∀ (holdings : List Holding) (i : Nat) (h : Holding), i < holdings.length →
      ((holdings.set i { h with amount := 0 }).map
        fun g => g.amount * priceFor prices g.id).sum
        = ((holdings.eraseIdx i).map
            fun g => g.amount * priceFor prices g.id).sum
  | [], i, _, hi => absurd hi (by simp)
  | g :: t, 0, h, _ => by simp
  | g :: t, i + 1, h, hi => by
    simp only [List.set_cons_succ, List.eraseIdx_cons_succ, List.map_cons,
      List.sum_cons]
    rw [sum_map_set_amount_zero prices t i h (by simpa using hi)]

/-- C6: the displayed total equals the sum over all holdings of amount
times the price looked up by the holding's identifier (a missing quote
counts as price zero, which is built into `priceFor`); an amount entered
through `updateAmount` as a non-finite number is stored as zero, and the
resulting total equals the total over the other holdings alone — the
updated holding contributes zero. -/
theorem C6_total_and_nonfinite_amount (holdings : List Holding)
    (prices : List (String × PriceEntry)) (i : Nat) (x : JsNum)
    (hi : i < holdings.length) (hx : x.isFinite = false) :
    totalUsd holdings prices
      = (holdings.map fun h => h.amount * priceFor prices h.id).sum ∧
    ((updateAmount holdings i x).get? i).map Holding.amount = some 0 ∧
    totalUsd (updateAmount holdings i x) prices
      = totalUsd (holdings.eraseIdx i) prices := by
  obtain ⟨h, hget⟩ : ∃ h, holdings.get? i = some h :=
    ⟨_, List.get?_eq_get hi⟩
  have hupd : updateAmount holdings i x
      = holdings.set i { h with amount := 0 } := by
    rw [updateAmount, hget]
    cases x <;> simp_all [JsNum.isFinite, JsNum.valD]
  refine ⟨by simpa using totalUsd_eq_sum prices holdings 0, ?_, ?_⟩
  · rw [hupd, List.get?_set_eq_of_lt _ hi]
    rfl
  · rw [hupd, totalUsd, totalUsd,
      totalUsd_eq_sum prices (holdings.set i { h with amount := 0 }) 0,
      totalUsd_eq_sum prices (holdings.eraseIdx i) 0,
      sum_map_set_amount_zero prices holdings i h hi]

/-- C6 witness: one holding of 2 units of `x` priced 3 totals 6; entering
`NaN` as its amount stores zero and drops the total to 0. -/
theorem C6_witness :
    totalUsd [⟨"x", none, none, 2⟩] [("x", ⟨none, 3⟩)]
      = (([⟨"x", none, none, 2⟩] : List Holding).map
          fun h => h.amount * priceFor [("x", ⟨none, 3⟩)] h.id).sum ∧
    ((updateAmount [⟨"x", none, none, 2⟩] 0 .nan).get? 0).map Holding.amount
      = some 0 ∧
    totalUsd (updateAmount [⟨"x", none, none, 2⟩] 0 .nan)
      [("x", ⟨none, 3⟩)]
      = totalUsd (([⟨"x", none, none, 2⟩] : List Holding).eraseIdx 0)
          [("x", ⟨none, 3⟩)] :=
  C6_total_and_nonfinite_amount [⟨"x", none, none, 2⟩] [("x", ⟨none, 3⟩)]
    0 .nan (by decide) rfl

/-- Position-by-position description of the reconciliation loop. -/
theorem applyChainAmountsFrom_get? (chainAmounts : List Nat) :
    ∀ (holdings : List Holding) (j i : Nat),
      ((applyChainAmountsFrom chainAmounts j holdings).get? i)
        = (holdings.get? i).map fun h =>
            { h with amount := (chainAmounts.getD (j + i) 0 : ℚ) / 10 ^ 18 }
  | [], _, _ => by simp [applyChainAmountsFrom]
  | h :: t, j, 0 => by simp [applyChainAmountsFrom]
  | h :: t, j, i + 1 => by
    simp only [applyChainAmountsFrom, List.get?_cons_succ]
    rw [applyChainAmountsFrom_get? chainAmounts t (j + 1) i]
    ring_nf

/-- C7: loading on-chain amounts overwrites each holding's amount with
the stored amount at the same list position (zero when the chain result
is shorter) divided by `10 ^ 18` — the 18-decimal fixed-point to display
number conversion — and leaves the holding's identifier in place. -/
theorem C7_chain_amounts_overwrite (holdings : List Holding)
    (chainAmounts : List Nat) (i : Nat) (hi : i < holdings.length) :
    ((applyChainAmounts chainAmounts holdings).get? i).map Holding.amount
      = some ((chainAmounts.getD i 0 : ℚ) / 10 ^ 18) ∧
    ((applyChainAmounts chainAmounts holdings).get? i).map Holding.id
      = (holdings.get? i).map Holding.id := by
  obtain ⟨h, hget⟩ : ∃ h, holdings.get? i = some h :=
    ⟨_, List.get?_eq_get hi⟩
  have := applyChainAmountsFrom_get? chainAmounts holdings 0 i
  rw [applyChainAmounts, this, hget]
  simp

/-- C7 witness: the stored amount 500000000000000000 (18-decimal fixed
point) loads into the single holding as the displayed amount 0.5. -/
theorem C7_witness :
    ((applyChainAmounts [500000000000000000]
        [⟨"coingecko:bitcoin", none, none, 0⟩]).get? 0).map Holding.amount
      = some (1 / 2 : ℚ) := by
  have h := (C7_chain_amounts_overwrite
    [⟨"coingecko:bitcoin", none, none, 0⟩] [500000000000000000] 0
    (by decide)).1
  rw [h]
  norm_num

/-- C5: an upstream non-ok status yields a 502 response with an error
body, an exception thrown during fetch or parse yields a 500 response
with an error body, and neither status is the success status 200. -/
theorem C5_error_statuses (idsParam : Option String) (ts : Nat)
    (u1 u2 : List String → UpstreamBehavior) (status : Nat) (msg : String)
    (h1 : u1 (parseIds idsParam) = .httpError status)
    (h2 : u2 (parseIds idsParam) = .throws msg) :
    (GET idsParam ts u1).status = 502 ∧
    (GET idsParam ts u1).body.isError = true ∧
    (GET idsParam ts u2).status = 500 ∧
    (GET idsParam ts u2).body.isError = true ∧
    (GET idsParam ts u1).status ≠ 200 ∧
    (GET idsParam ts u2).status ≠ 200 := by
  have hg1 : GET idsParam ts u1
      = ⟨502, .error ("Upstream error: " ++ toString status)⟩ := by
    simp [GET, h1]
  have hg2 : GET idsParam ts u2 = ⟨500, .error msg⟩ := by
    simp [GET, h2]
  rw [hg1, hg2]
  exact ⟨rfl, rfl, rfl, rfl, by simp, by simp⟩

/-- C5 witness: an upstream answering 503 yields a 502 error response and
a throwing fetch yields a 500 error response, neither with status 200. -/
theorem C5_witness :
    (GET none 0 c5UpstreamHttpError).status = 502 ∧
    (GET none 0 c5UpstreamHttpError).body.isError = true ∧
    (GET none 0 c5UpstreamThrows).status = 500 ∧
    (GET none 0 c5UpstreamThrows).body.isError = true ∧
    (GET none 0 c5UpstreamHttpError).status ≠ 200 ∧
    (GET none 0 c5UpstreamThrows).status ≠ 200 :=
  C5_error_statuses none 0 c5UpstreamHttpError c5UpstreamThrows 503
    "fetch failed" rfl rfl

/-- C10 witness: after owner 0 batch-writes identifiers 1 and 2, owner 1's
slot for identifier 1 and owner 0's slot for identifier 5 are unchanged,
and likewise for a single `set` of identifier 3. -/
theorem C10_witness :
    (PortfolioRegistry.setManyTx initialState 0 [1, 2] [10, 20]).amountOf 1 1
      = initialState.amountOf 1 1 ∧
    (PortfolioRegistry.set initialState 0 3 4).amountOf 1 1
      = initialState.amountOf 1 1 :=
  C10_set_setMany_frame initialState 0 3 4 [1, 2] [10, 20]
    (PortfolioRegistry.setManyTx initialState 0 [1, 2] [10, 20]) 1 1
    rfl (Or.inl (by decide)) (Or.inl (by decide))

/-! Helper lemmas for the identifier derivation `toAssetId`. -/

/-- A value below `16 ^ k` prints in at most `k` hexadecimal digits. -/
theorem hexDigits_length_le : ∀ (k n : Nat), n < 16 ^ k → 1 ≤ k →
    (hexDigits n).length ≤ k := by
  intro k
  induction k with
  | zero => intro n _ h1; exact absurd h1 (by norm_num)
  | succ k ih =>
    intro n hn _
    rw [hexDigits]
    split
    · simp
    · rename_i h16
      have hk1 : 1 ≤ k := by
        by_contra hk
        have hk0 : k = 0 := by omega
        subst hk0
        simp [pow_succ] at hn
        omega
      have hdiv : n / 16 < 16 ^ k := by
        rw [Nat.div_lt_iff_lt_mul (by norm_num)]
        calc n < 16 ^ (k + 1) := hn
        _ = 16 ^ k * 16 := by ring
      have := ih (n / 16) hdiv hk1
      simp only [List.length_append, List.length_cons, List.length_nil]
      omega

/-- Every UTF-8 byte fits a 32-bit pattern (indeed a byte, but the weaker
bound is all the xor fold needs). -/
theorem utf8Bytes_lt (c : Char) : ∀ b ∈ utf8Bytes c, b < 2 ^ 32 := by
  have hc : c.toNat < 2 ^ 32 := by
    have := c.val.toNat_lt
    simpa [Char.toNat] using this
  have hsr : ∀ k : Nat, c.toNat >>> k ≤ c.toNat := fun k => by
    rw [Nat.shiftRight_eq_div_pow]; exact Nat.div_le_self _ _
  intro b hb
  simp only [utf8Bytes] at hb
  split_ifs at hb <;> simp only [List.mem_cons, List.mem_singleton,
    List.not_mem_nil, or_false] at hb
  · omega
  · rcases hb with rfl | rfl
    · exact Nat.or_lt_two_pow (by norm_num) (lt_of_le_of_lt (hsr _) hc)
    · exact Nat.or_lt_two_pow (by norm_num)
        (lt_of_le_of_lt Nat.and_le_right (by norm_num))
  · rcases hb with rfl | rfl | rfl
    · exact Nat.or_lt_two_pow (by norm_num) (lt_of_le_of_lt (hsr _) hc)
    · exact Nat.or_lt_two_pow (by norm_num)
        (lt_of_le_of_lt Nat.and_le_right (by norm_num))
    · exact Nat.or_lt_two_pow (by norm_num)
        (lt_of_le_of_lt Nat.and_le_right (by norm_num))
  · rcases hb with rfl | rfl | rfl | rfl
    · exact Nat.or_lt_two_pow (by norm_num) (lt_of_le_of_lt (hsr _) hc)
    · exact Nat.or_lt_two_pow (by norm_num)
        (lt_of_le_of_lt Nat.and_le_right (by norm_num))
    · exact Nat.or_lt_two_pow (by norm_num)
        (lt_of_le_of_lt Nat.and_le_right (by norm_num))
    · exact Nat.or_lt_two_pow (by norm_num)
        (lt_of_le_of_lt Nat.and_le_right (by norm_num))

/-- The xor fold stays a 32-bit pattern. -/
theorem foldl_djb2Step_lt :
    ∀ (bytes : List Nat) (acc : Nat), acc < 2 ^ 32 →
      (∀ b ∈ bytes, b < 2 ^ 32) → bytes.foldl djb2Step acc < 2 ^ 32
  | [], _, hacc, _ => hacc
  | b :: bytes, acc, _, hb => by
    rw [List.foldl_cons]
    refine foldl_djb2Step_lt bytes _ ?_
      fun q hq => hb q (List.mem_cons_of_mem _ hq)
    simp only [djb2Step]
    exact Nat.xor_lt_two_pow (Nat.mod_lt _ (by norm_num))
      (hb b (List.mem_cons_self _ _))

/-- The folded hash of any string is a 32-bit pattern. -/
theorem djb2_encodeUtf8_lt (s : String) : djb2 (encodeUtf8 s) < 2 ^ 32 := by
  refine foldl_djb2Step_lt _ 5381 (by norm_num) ?_
  intro b hb
  rw [encodeUtf8, List.mem_flatMap] at hb
  obtain ⟨c, _, hbc⟩ := hb
  exact utf8Bytes_lt c b hbc

/-- Padding a list no longer than the target yields exactly the target
length. -/
theorem padStart_length (target : Nat) (c : Char) (l : List Char)
    (h : l.length ≤ target) : (padStart target c l).length = target := by
  simp [padStart, Nat.sub_add_cancel h]

/-- C8: `toAssetId` is a pure function of the identifier string alone (it
is a closed Lean function, hence deterministic across calls and sessions),
and its value decomposes as the `0x` tag, 56 zero-pad characters, and the
8 hexadecimal digits of the 32-bit djb2-xor fold of the string's UTF-8
bytes: a fixed-width 32-byte (64 hex digit) value obtained by folding the
string into a short non-cryptographic hash and zero-padding it. -/
theorem C8_toAssetId_shape (s : String) :
    djb2 (encodeUtf8 s) < 2 ^ 32 ∧
    toAssetId s = String.mk ('0' :: 'x' :: (List.replicate 56 '0'
        ++ padStart 8 '0' (hexDigits (djb2 (encodeUtf8 s))))) ∧
    (toAssetId s).length = 66 := by
  have hlt : djb2 (encodeUtf8 s) < 2 ^ 32 := djb2_encodeUtf8_lt s
  have hlt16 : djb2 (encodeUtf8 s) < 16 ^ 8 := by
    rw [show (16 : Nat) ^ 8 = 2 ^ 32 by norm_num]
    exact hlt
  have hlen8 : (padStart 8 '0' (hexDigits (djb2 (encodeUtf8 s)))).length = 8 :=
    padStart_length 8 '0' _ (hexDigits_length_le 8 _ hlt16 (by norm_num))
  have houter : padStart 64 '0'
        (padStart 8 '0' (hexDigits (djb2 (encodeUtf8 s))))
      = List.replicate 56 '0'
          ++ padStart 8 '0' (hexDigits (djb2 (encodeUtf8 s))) := by
    rw [padStart, hlen8]
  refine ⟨hlt, ?_, ?_⟩
  · rw [toAssetId, houter]
  · rw [toAssetId, houter]
    simp [String.length, hlen8]

/-! Helper lemma for the stale-poll guard. -/

/-- Once an effect epoch's `ignore` flag is set, no later event unsets
it: cleanups only set flags and resolutions never change them. -/
theorem pollRun_ignoreOf_mono (e : Nat) :
    ∀ (evs : List PollEvent) (s : EffectState), s.ignoreOf e = true →
      (pollRun s evs).ignoreOf e = true
  | [], _, h => h
  | ev :: evs, s, h => by
    rw [pollRun, List.foldl_cons]
    refine pollRun_ignoreOf_mono e evs (pollStep s ev) ?_
    cases ev with
    | cleanup e' =>
        simp only [pollStep]
        split <;> simp [h]
    | resolve e' r =>
        simp only [pollStep]
        split <;> simp [h]

/-- C9: a poll response belonging to an effect epoch whose `ignore` flag
is already set — which is the case for every poll started before an
identifier-set change, since the change runs that effect's cleanup — is
never applied: appending its resolution after any interleaving of later
events leaves the price mapping exactly as without it. -/
theorem C9_stale_poll_not_applied (s : EffectState) (e : Nat)
    (evs : List PollEvent) (r : List (String × PriceEntry))
    (h : s.ignoreOf e = true) :
    (pollRun s (evs ++ [.resolve e r])).prices = (pollRun s evs).prices := by
  have hmono : (pollRun s evs).ignoreOf e = true :=
    pollRun_ignoreOf_mono e evs s h
  rw [pollRun, List.foldl_append, List.foldl_cons, List.foldl_nil]
  rw [pollRun] at hmono
  simp [pollStep, hmono, pollRun]

/-- C9 witness: the identifier set changes from `[a]` to `[b]` — running
epoch 0's cleanup — then epoch 1's poll for `b` resolves, and only
afterwards the stale poll for `a` resolves: the price mapping is the one
established for `b`, untouched by the `a` response. -/
theorem C9_witness :
    (pollRun (pollStep pollInit (.cleanup 0))
        ([PollEvent.resolve 1 [("b", ⟨none, 5⟩)]]
          ++ [PollEvent.resolve 0 [("a", ⟨none, 7⟩)]])).prices
      = (pollRun (pollStep pollInit (.cleanup 0))
          [PollEvent.resolve 1 [("b", ⟨none, 5⟩)]]).prices ∧
    (pollRun (pollStep pollInit (.cleanup 0))
        [PollEvent.resolve 1 [("b", ⟨none, 5⟩)]]).prices
      = [("b", ⟨none, 5⟩)] :=
  ⟨C9_stale_poll_not_applied (pollStep pollInit (.cleanup 0)) 0
      [PollEvent.resolve 1 [("b", ⟨none, 5⟩)]] [("a", ⟨none, 7⟩)] rfl,
    rfl⟩

end Baseminiapp
